import Mathlib

/-!
Verification development for the py2md repository (src/py2md/main.py).

Lines of the input file are modelled as `List Char`; the list of lines read
from the source file is a `List (List Char)`.  File I/O (reading the python
file, writing the markdown file) is an external collaborator and is not
modelled: `extract_comments` takes the list of lines directly, and
`build_markdown` returns the assembled string instead of writing it.
-/

namespace Py2Md

/-- The double-quote character. -/
def quot : Char := '\"'

/-- The apostrophe (single-quote) character, code point 39. -/
def apos : Char := Char.ofNat 39

/-- The triple-double-quote marker `\x22\x22\x22`. -/
def dq : List Char := [quot, quot, quot]

/-- The triple-single-quote marker. -/
def sq : List Char := [apos, apos, apos]

/-- Embedding of `is_comment` from src/py2md/main.py:
`return line.startswith('\x22\x22\x22') or line.startswith(...)`. -/
def is_comment (line : List Char) : Bool :=
  dq.isPrefixOf line || sq.isPrefixOf line

/-- Embedding of Python's `line.replace(p, "")` for a three-character
pattern `p = [p1, p2, p3]`: scans left to right, removing every
non-overlapping occurrence of the pattern. -/
def replaceEmpty (p1 p2 p3 : Char) : List Char → List Char
  | c1 :: c2 :: c3 :: rest =>
    if c1 = p1 ∧ c2 = p2 ∧ c3 = p3 then replaceEmpty p1 p2 p3 rest
    else c1 :: replaceEmpty p1 p2 p3 (c2 :: c3 :: rest)
  | l => l

/-- Embedding of `remove_comment_syntax` from src/py2md/main.py: an
if/elif chain checking prefix of the double-quote marker, prefix of the
single-quote marker, suffix of the double-quote marker, suffix of the
single-quote marker; the branch taken performs `line.replace(marker, "")`. -/
def remove_comment_syntax (line : List Char) : List Char :=
  if dq.isPrefixOf line then replaceEmpty quot quot quot line
  else if sq.isPrefixOf line then replaceEmpty apos apos apos line
  else if dq.isSuffixOf line then replaceEmpty quot quot quot line
  else if sq.isSuffixOf line then replaceEmpty apos apos apos line
  else line

/-- Embedding of the `Block` dataclass from src/py2md/main.py. -/
structure Block where
  content : List Char
  is_code : Bool
  deriving DecidableEq

/-- Embedding of Python's `"".join(xs)` on a list of strings. -/
def joinL : List (List Char) → List Char
  | [] => []
  | x :: xs => x ++ joinL xs

/-- The local state of the loop inside `extract_comments`:
the output list `blocks`, the flag `in_comment_block`, and the two
accumulators `comment_block` and `code_block` (lists of lines). -/
structure ExtractState where
  blocks : List Block
  in_comment : Bool
  comment_block : List (List Char)
  code_block : List (List Char)
  deriving DecidableEq

/-- The initial loop state of `extract_comments`. -/
def initState : ExtractState :=
  { blocks := [], in_comment := false, comment_block := [], code_block := [] }

/-- One iteration of the loop body of `extract_comments` in
src/py2md/main.py, at loop index `i` on line `line`. -/
def step (i : Nat) (line : List Char) (s : ExtractState) : ExtractState :=
  if is_comment line then
    if !s.in_comment then
      let s1 :=
        if i ≠ 0 then
          { s with
              blocks := s.blocks ++ [⟨joinL s.code_block, true⟩]
              code_block := [] }
        else s
      { s1 with
          in_comment := true
          comment_block := s1.comment_block ++ [ remove_comment_syntax line] }
    else
      { s with
          blocks := s.blocks ++ [⟨joinL s.comment_block, false⟩]
          comment_block := []
          in_comment := false }
  else
    if s.in_comment then { s with comment_block := s.comment_block ++ [line] }
    else { s with code_block := s.code_block ++ [line] }

/-- The whole `for i, line in enumerate(code_lines)` loop of
`extract_comments`, starting at index `i` in state `s`. -/
def processLines : List (List Char) → Nat → ExtractState → ExtractState
  | [], _, s => s
  | l :: ls, i, s => processLines ls (i + 1) (step i l s)

/-- Embedding of `extract_comments` from src/py2md/main.py, taking the
list of lines read from the file (file I/O is external): runs the loop
from `initState` and then flushes the code accumulator as a trailing
code block when it is non-empty. -/
def extract_comments (code_lines : List (List Char)) : List Block :=
  let s := processLines code_lines 0 initState
  if s.code_block.length > 0 then s.blocks ++ [⟨joinL s.code_block, true⟩]
  else s.blocks

/-- Embedding of `build_markdown` from src/py2md/main.py, returning the
assembled string instead of writing it to a file: blocks with empty
content are skipped, code blocks are wrapped in fences, text blocks are
appended unmodified. -/
def build_markdown (blocks : List Block) : List Char :=
  blocks.foldl
    (fun file block =>
      if block.content.length = 0 then file
      else if block.is_code then
        file ++ "\n```python\n".data ++ block.content ++ "\n```\n".data
      else file ++ block.content)
    []

/-- The concatenation of the contents of a list of blocks, in order. -/
def contentsFlat (bs : List Block) : List Char :=
  joinL (bs.map Block.content)

/-- Modelled from the spec (P2, §4.1), as the comparison function of the
amended claim C4: the content of the original lines that the segmenter
keeps, namely every non-marker line verbatim, every opening marker line
in delimiter-stripped form, and nothing at all from a closing marker
line. -/
def keptContent : Bool → List (List Char) → List Char
  | _, [] => []
  | inText, l :: ls =>
    if is_comment l then
      if inText then keptContent false ls
      else remove_comment_syntax l ++ keptContent true ls
    else l ++ keptContent inText ls

/-- Modelled from the spec (§4.2), as the comparison function of claim C8:
a block renders to nothing when its content is empty; a non-empty code
block renders to a leading newline, an opening fence tagged with the
language name, a newline, the verbatim content, a newline, a closing
fence and a final newline; a non-empty text block renders to its content. -/
def renderBlockSpec (b : Block) : List Char :=
  if b.content.length = 0 then []
  else if b.is_code then
    ['\n'] ++ "```python".data ++ ['\n'] ++ b.content ++ ['\n'] ++ "```".data ++ ['\n']
  else b.content

/-- Decides whether a string contains three consecutive newline
characters (used to state claim C2 about blank-run suppression). -/
def hasTripleNewline : List Char → Bool
  | '\n' :: '\n' :: '\n' :: _ => true
  | _ :: rest => hasTripleNewline rest
  | [] => false

/-- The accumulator-content invariant of the `extract_comments` loop:
inside a comment block the code accumulator is empty, outside it the
comment accumulator is empty. -/
def InvC (s : ExtractState) : Prop :=
  (s.in_comment = true → s.code_block = []) ∧
  (s.in_comment = false → s.comment_block = [])

/-- All content a loop state accounts for: flushed blocks followed by the
two pending accumulators. -/
def pContent (s : ExtractState) : List Char :=
  contentsFlat s.blocks ++ joinL s.code_block ++ joinL s.comment_block

lemma replaceEmpty_cons_ne (p1 p2 p3 c : Char) (t : List Char) (h : c ≠ p1) :
    replaceEmpty p1 p2 p3 (c :: t) = c :: replaceEmpty p1 p2 p3 t := by
  match t with
  | [] => rfl
  | [x] => rfl
  | x :: y :: rest => simp [replaceEmpty, h]

lemma replaceEmpty_head (p1 p2 p3 : Char) (t : List Char) :
    replaceEmpty p1 p2 p3 (p1 :: p2 :: p3 :: t) = replaceEmpty p1 p2 p3 t := by
  simp [replaceEmpty]

lemma replaceEmpty_append_of_ne (p1 p2 p3 : Char) (s t : List Char)
    (h : ∀ c ∈ s, c ≠ p1) :
    replaceEmpty p1 p2 p3 (s ++ t) = s ++ replaceEmpty p1 p2 p3 t := by
  induction s with
  | nil => simp
  | cons c s ih =>
    have hc : c ≠ p1 := h c (List.mem_cons_self ..)
    rw [List.cons_append, replaceEmpty_cons_ne p1 p2 p3 c _ hc,
      ih (fun d hd => h d (List.mem_cons_of_mem _ hd)), List.cons_append]

lemma isPrefixOf_eq_false_of_head_ne {a b : Char} {p l : List Char} (h : a ≠ b) :
    List.isPrefixOf (a :: p) (b :: l) = false := by
  cases hb : List.isPrefixOf (a :: p) (b :: l) with
  | false => rfl
  | true =>
    obtain ⟨hab, -⟩ := List.cons_prefix_cons.mp (List.isPrefixOf_iff_prefix.mp hb)
    exact absurd hab h

/-- C1: the renderer of src/py2md/main.py applies no escape normalization
at all: a TextBlock whose content is a doubled backslash is rendered
verbatim as two backslash characters, not collapsed to one. -/
theorem C1_render_keeps_doubled_backslash :
    build_markdown [⟨['\\', '\\'], false⟩] = ['\\', '\\'] ∧
    (['\\', '\\'] : List Char) ≠ ['\\'] := by decide

/-- C2: the renderer of src/py2md/main.py performs no blank-run
suppression: rendering the single code block with content "x\n\n"
produces a string containing three consecutive newline characters. -/
theorem C2_triple_newline_possible :
    hasTripleNewline (build_markdown [⟨"x\n\n".data, true⟩]) = true ∧
    build_markdown [⟨"x\n\n".data, true⟩] = "\n```python\nx\n\n\n```\n".data := by
  decide

/-- C3 counterexample: on a one-line block, delimiter stripping removes
both the prefix and the suffix occurrence of the marker (Python
`str.replace` substitutes every occurrence), so the result is "Hello"
and not "Hello\x22\x22\x22" as the claim states. -/
theorem C3_counterexample :
    remove_comment_syntax ("\"\"\"Hello\"\"\"".data) = "Hello".data ∧
    remove_comment_syntax ("\"\"\"Hello\"\"\"".data) ≠ "Hello\"\"\"".data := by
  decide

/-- C3 (amended): delimiter stripping checks prefix of the double-quote
marker, prefix of the single-quote marker, suffix of the double-quote
marker, suffix of the single-quote marker, in that order with the first
match selecting the marker; the substitution then removes every
occurrence of the selected marker in the line.  For a line that both
starts and ends with the same marker and is otherwise marker-free, both
the prefix and the suffix occurrence are removed; when the prefix and the
suffix are different markers, the prefix match wins and the suffix marker
survives. -/
theorem C3_amended (s : List Char) (h : ∀ c ∈ s, c ≠ quot ∧ c ≠ apos) :
    remove_comment_syntax (dq ++ (s ++ dq)) = s ∧
    remove_comment_syntax (sq ++ (s ++ sq)) = s ∧
    remove_comment_syntax (dq ++ (s ++ sq)) = s ++ sq ∧
    remove_comment_syntax (sq ++ (s ++ dq)) = s ++ dq := by
  have hq : ∀ c ∈ s, c ≠ quot := fun c hc => (h c hc).1
  have ha : ∀ c ∈ s, c ≠ apos := fun c hc => (h c hc).2
  have hdq : ∀ t : List Char, List.isPrefixOf dq (dq ++ t) = true := fun t =>
    List.isPrefixOf_iff_prefix.mpr (List.prefix_append dq t)
  have hsq : ∀ t : List Char, List.isPrefixOf sq (sq ++ t) = true := fun t =>
    List.isPrefixOf_iff_prefix.mpr (List.prefix_append sq t)
  have hds : ∀ t : List Char, List.isPrefixOf dq (sq ++ t) = false := fun t =>
    isPrefixOf_eq_false_of_head_ne (by decide)
  refine ⟨?_, ?_, ?_, ?_⟩
  · rw [ remove_comment_syntax, if_pos (hdq (s ++ dq))]
    show replaceEmpty quot quot quot (quot :: quot :: quot :: (s ++ dq)) = s
    rw [replaceEmpty_head, replaceEmpty_append_of_ne quot quot quot s dq hq]
    simp [dq, quot, replaceEmpty]
  · rw [ remove_comment_syntax, if_neg (by simp [hds (s ++ sq)]),
      if_pos (hsq (s ++ sq))]
    show replaceEmpty apos apos apos (apos :: apos :: apos :: (s ++ sq)) = s
    rw [replaceEmpty_head, replaceEmpty_append_of_ne apos apos apos s sq ha]
    simp [sq, apos, replaceEmpty]
  · rw [ remove_comment_syntax, if_pos (hdq (s ++ sq))]
    show replaceEmpty quot quot quot (quot :: quot :: quot :: (s ++ sq)) = s ++ sq
    rw [replaceEmpty_head, replaceEmpty_append_of_ne quot quot quot s sq hq]
    simp [sq, apos, quot, replaceEmpty]
  · rw [ remove_comment_syntax, if_neg (by simp [hds (s ++ dq)]),
      if_pos (hsq (s ++ dq))]
    show replaceEmpty apos apos apos (apos :: apos :: apos :: (s ++ dq)) = s ++ dq
    rw [replaceEmpty_head, replaceEmpty_append_of_ne apos apos apos s dq ha]
    simp [dq, apos, quot, replaceEmpty]

/-- C3 witness: the amended claim applied to the interior "Hello world",
one-line double-quoted block case. -/
theorem C3_witness :
    remove_comment_syntax (dq ++ ("Hello world".data ++ dq)) = "Hello world".data :=
  (C3_amended ("Hello world".data) (by decide)).1

/-- C5: Scenario A: on the seven-line input the segmenter returns exactly
a TextBlock with the two header lines, a CodeBlock with the print line,
and a TextBlock with the two footer lines, in that order. -/
theorem C5_scenarioA :
    extract_comments
      ["\"\"\"Header comment\n".data, "Still header comment\n".data,
       "\"\"\"\n".data, "print(\"Hello World\")\n".data,
       "\"\"\"Footer comment\n".data, "More footer comment\n".data,
       "\"\"\"".data] =
    [⟨"Header comment\nStill header comment\n".data, false⟩,
     ⟨"print(\"Hello World\")\n".data, true⟩,
     ⟨"Footer comment\nMore footer comment\n".data, false⟩] := by decide

/-- C6: a line is a marker line if and only if it literally starts with
the triple-double-quote or the triple-single-quote sequence at column 0;
a line beginning with any whitespace character is never a marker line. -/
theorem C6_marker_predicate :
    (∀ l : List Char, is_comment l = true ↔ (dq <+: l ∨ sq <+: l)) ∧
    (∀ (c : Char) (r : List Char), c.isWhitespace = true →
      is_comment (c :: r) = false) := by
  constructor
  · intro l
    simp [is_comment]
  · intro c r hw
    cases hb : is_comment (c :: r) with
    | false => rfl
    | true =>
      exfalso
      simp only [is_comment, Bool.or_eq_true, List.isPrefixOf_iff_prefix] at hb
      rcases hb with hp | hp
      · rw [show dq = quot :: [quot, quot] from rfl, List.cons_prefix_cons] at hp
        obtain ⟨hc, -⟩ := hp
        subst hc
        exact absurd hw (by decide)
      · rw [show sq = apos :: [apos, apos] from rfl, List.cons_prefix_cons] at hp
        obtain ⟨hc, -⟩ := hp
        subst hc
        exact absurd hw (by decide)

/-- C6 witness: a line with a leading space before the marker is not a
marker line. -/
theorem C6_witness : is_comment (' ' :: "\"\"\"indented".data) = false :=
  C6_marker_predicate.2 ' ' ("\"\"\"indented".data) (by decide)

/-- C10: a line that neither starts nor ends with one of the two
triple-quote markers is returned unchanged by delimiter stripping, even
when a marker occurs in the middle of the line. -/
theorem C10_no_marker_identity (l : List Char)
    (h1 : ¬ (dq <+: l)) (h2 : ¬ (sq <+: l))
    (h3 : ¬ (dq <:+ l)) (h4 : ¬ (sq <:+ l)) :
    remove_comment_syntax l = l := by
  have b1 : List.isPrefixOf dq l = false := by
    cases hb : List.isPrefixOf dq l with
    | false => rfl
    | true => exact absurd (List.isPrefixOf_iff_prefix.mp hb) h1
  have b2 : List.isPrefixOf sq l = false := by
    cases hb : List.isPrefixOf sq l with
    | false => rfl
    | true => exact absurd (List.isPrefixOf_iff_prefix.mp hb) h2
  have b3 : List.isSuffixOf dq l = false := by
    cases hb : List.isSuffixOf dq l with
    | false => rfl
    | true => exact absurd (List.isSuffixOf_iff_suffix.mp hb) h3
  have b4 : List.isSuffixOf sq l = false := by
    cases hb : List.isSuffixOf sq l with
    | false => rfl
    | true => exact absurd (List.isSuffixOf_iff_suffix.mp hb) h4
  simp [ remove_comment_syntax, b1, b2, b3, b4]

/-- C10 witness: a line with a triple-double-quote marker strictly in the
middle is returned unchanged. -/
theorem C10_witness :
    remove_comment_syntax ("abc\"\"\"def".data) = "abc\"\"\"def".data :=
  C10_no_marker_identity ("abc\"\"\"def".data)
    (fun hp => absurd (List.isPrefixOf_iff_prefix.mpr hp) (by decide))
    (fun hp => absurd (List.isPrefixOf_iff_prefix.mpr hp) (by decide))
    (fun hp => absurd (List.isSuffixOf_iff_suffix.mpr hp) (by decide))
    (fun hp => absurd (List.isSuffixOf_iff_suffix.mpr hp) (by decide))

lemma string_open_data : "\n```python\n".data = ['\n'] ++ "```python".data ++ ['\n'] := by
  decide

lemma string_close_data : "\n```\n".data = ['\n'] ++ "```".data ++ ['\n'] := by
  decide

lemma foldl_render (blocks : List Block) (acc : List Char) :
    List.foldl
      (fun file block =>
        if block.content.length = 0 then file
        else if block.is_code then
          file ++ "\n```python\n".data ++ block.content ++ "\n```\n".data
        else file ++ block.content)
      acc blocks = acc ++ joinL (blocks.map renderBlockSpec) := by
  induction blocks generalizing acc with
  | nil => simp [joinL]
  | cons b bs ih =>
    rw [List.foldl_cons, ih]
    by_cases h0 : b.content.length = 0
    · simp [renderBlockSpec, h0, joinL]
    · cases hc : b.is_code with
      | true =>
        simp [renderBlockSpec, h0, hc, joinL, string_open_data, string_close_data]
      | false =>
        simp [renderBlockSpec, h0, hc, joinL]

lemma joinL_append (a b : List (List Char)) : joinL (a ++ b) = joinL a ++ joinL b := by
  induction a with
  | nil => simp [joinL]
  | cons x xs ih => simp [joinL, ih]

lemma joinL_concat (xs : List (List Char)) (x : List Char) :
    joinL (xs ++ [x]) = joinL xs ++ x := by
  rw [joinL_append]
  simp [joinL]

lemma contentsFlat_concat (bs : List Block) (b : Block) :
    contentsFlat (bs ++ [b]) = contentsFlat bs ++ b.content := by
  simp [contentsFlat, joinL_concat]

lemma processLines_master (lines : List (List Char)) :
    ∀ (i : Nat) (s : ExtractState), InvC s → (i = 0 → s = initState) →
      InvC (processLines lines i s) ∧
      pContent (processLines lines i s) =
        pContent s ++ keptContent s.in_comment lines := by
  induction lines with
  | nil =>
    intro i s hI _
    exact ⟨hI, by simp [processLines, keptContent]⟩
  | cons l ls ih =>
    intro i s hI h0
    rw [processLines]
    by_cases hm : is_comment l = true
    · by_cases hic : s.in_comment = true
      · -- a marker line while inside a comment block: flush the text block
        have hcode : s.code_block = [] := hI.1 hic
        have hstep : step i l s =
            { s with
                blocks := s.blocks ++ [⟨joinL s.comment_block, false⟩]
                comment_block := []
                in_comment := false } := by
          simp [step, hm, hic]
        rw [hstep]
        obtain ⟨hInv, heq⟩ := ih (i + 1)
          { s with
              blocks := s.blocks ++ [⟨joinL s.comment_block, false⟩]
              comment_block := []
              in_comment := false }
          ⟨by simp, by simp⟩ (fun hz => absurd hz (Nat.succ_ne_zero i))
        refine ⟨hInv, ?_⟩
        rw [heq]
        simp [pContent, contentsFlat, List.map_append, joinL_append, joinL,
          keptContent, hm, hic, hcode]
      · -- a marker line while outside: enter a comment block
        have hic' : s.in_comment = false := by simpa using hic
        have hcomment : s.comment_block = [] := hI.2 hic'
        by_cases hi : i = 0
        · have hs : s = initState := h0 hi
          subst hs
          have hstep : step i l initState =
              { initState with
                  in_comment := true
                  comment_block := [ remove_comment_syntax l] } := by
            simp [step, hm, hi, initState]
          rw [hstep]
          obtain ⟨hInv, heq⟩ := ih (i + 1)
            { initState with
                in_comment := true
                comment_block := [ remove_comment_syntax l] }
            ⟨by simp [initState], by simp⟩ (fun hz => absurd hz (Nat.succ_ne_zero i))
          refine ⟨hInv, ?_⟩
          rw [heq]
          simp [pContent, contentsFlat, joinL, keptContent, hm, initState]
        · have hstep : step i l s =
              { s with
                  blocks := s.blocks ++ [⟨joinL s.code_block, true⟩]
                  code_block := []
                  in_comment := true
                  comment_block := s.comment_block ++ [ remove_comment_syntax l] } := by
            simp [step, hm, hic', hi]
          rw [hstep]
          obtain ⟨hInv, heq⟩ := ih (i + 1)
            { s with
                blocks := s.blocks ++ [⟨joinL s.code_block, true⟩]
                code_block := []
                in_comment := true
                comment_block := s.comment_block ++ [ remove_comment_syntax l] }
            ⟨by simp, by simp⟩ (fun hz => absurd hz (Nat.succ_ne_zero i))
          refine ⟨hInv, ?_⟩
          rw [heq]
          simp [pContent, contentsFlat, List.map_append, joinL_append, joinL,
            keptContent, hm, hic', hcomment]
    · have hm' : is_comment l = false := by simpa using hm
      by_cases hic : s.in_comment = true
      · -- an ordinary line inside a comment block
        have hcode : s.code_block = [] := hI.1 hic
        have hstep : step i l s =
            { s with comment_block := s.comment_block ++ [l] } := by
          simp [step, hm', hic]
        rw [hstep]
        obtain ⟨hInv, heq⟩ := ih (i + 1)
          { s with comment_block := s.comment_block ++ [l] }
          ⟨by simpa using hI.1, by simp [hic]⟩
          (fun hz => absurd hz (Nat.succ_ne_zero i))
        refine ⟨hInv, ?_⟩
        rw [heq]
        simp [pContent, contentsFlat, joinL_concat, keptContent, hm', hic, hcode,
          joinL]
      · -- an ordinary line outside: code
        have hic' : s.in_comment = false := by simpa using hic
        have hcomment : s.comment_block = [] := hI.2 hic'
        have hstep : step i l s =
            { s with code_block := s.code_block ++ [l] } := by
          simp [step, hm', hic']
        rw [hstep]
        obtain ⟨hInv, heq⟩ := ih (i + 1)
          { s with code_block := s.code_block ++ [l] }
          ⟨by simp [hic'], by simpa using hI.2⟩
          (fun hz => absurd hz (Nat.succ_ne_zero i))
        refine ⟨hInv, ?_⟩
        rw [heq]
        simp [pContent, contentsFlat, joinL_concat, keptContent, hm', hic', hcomment,
          joinL]

/-- C4 counterexample: on the two-line input whose first line opens a text
region and whose second line is a bare closing marker followed by a
newline, the concatenated block contents are "a\n", while the original
lines with only the marker substrings removed would be "a\n\n": the
closing marker line's remaining newline character is lost. -/
theorem C4_counterexample :
    contentsFlat (extract_comments ["\"\"\"a\n".data, "\"\"\"\n".data]) = "a\n".data ∧
    remove_comment_syntax ("\"\"\"a\n".data) ++ remove_comment_syntax ("\"\"\"\n".data) =
      "a\n\n".data ∧
    ("a\n".data : List Char) ≠ "a\n\n".data := by decide

/-- C4 (amended): for every input whose final segmenter state is outside a
text region (every text region is closed), the concatenation of all block
contents, in emitted order, reconstructs the original line sequence where
each non-marker line appears verbatim, each opening marker line appears in
delimiter-stripped form, and each closing marker line is dropped entirely
(its stripped remainder is discarded); an input ending inside an
unterminated text region additionally loses that region's content. -/
theorem C4_amended (lines : List (List Char))
    (h : (processLines lines 0 initState).in_comment = false) :
    contentsFlat (extract_comments lines) = keptContent false lines := by
  obtain ⟨hInv, heq⟩ := processLines_master lines 0 initState
    ⟨by simp [initState], by simp [initState]⟩ (fun _ => rfl)
  have hcomment : (processLines lines 0 initState).comment_block = [] := hInv.2 h
  have heq' : contentsFlat (processLines lines 0 initState).blocks ++
      joinL (processLines lines 0 initState).code_block = keptContent false lines := by
    have h2 := heq
    rw [show pContent initState = [] from rfl,
      show initState.in_comment = false from rfl] at h2
    rw [pContent, hcomment] at h2
    simpa [joinL] using h2
  simp only [extract_comments]
  by_cases hcb : (processLines lines 0 initState).code_block.length > 0
  · rw [if_pos hcb, contentsFlat_concat]
    exact heq'
  · have hnil : (processLines lines 0 initState).code_block = [] := by
      simpa using List.eq_nil_of_length_eq_zero (by omega)
    rw [if_neg hcb]
    simpa [hnil, joinL] using heq'

/-- C4 witness: the amended claim applied to a three-line input consisting
of a code line and a closed text region. -/
theorem C4_witness :
    contentsFlat (extract_comments ["a\n".data, "\"\"\"t\n".data, "\"\"\"\n".data]) =
      keptContent false ["a\n".data, "\"\"\"t\n".data, "\"\"\"\n".data] :=
  C4_amended ["a\n".data, "\"\"\"t\n".data, "\"\"\"\n".data] (by decide)

/-- C7: after all lines are consumed, the code accumulator is flushed as a
trailing code block exactly when it is non-empty, and the text accumulator
is never flushed: when the input ends inside an unterminated text region,
the output is exactly the blocks flushed earlier, so the accumulated text
content appears in no emitted block. -/
theorem C7_trailing_flush (lines : List (List Char)) :
    ((processLines lines 0 initState).code_block ≠ [] →
      extract_comments lines =
        (processLines lines 0 initState).blocks ++
          [⟨joinL (processLines lines 0 initState).code_block, true⟩]) ∧
    ((processLines lines 0 initState).code_block = [] →
      extract_comments lines = (processLines lines 0 initState).blocks) ∧
    ((processLines lines 0 initState).in_comment = true →
      extract_comments lines = (processLines lines 0 initState).blocks) := by
  obtain ⟨hInv, -⟩ := processLines_master lines 0 initState
    ⟨by simp [initState], by simp [initState]⟩ (fun _ => rfl)
  refine ⟨?_, ?_, ?_⟩
  · intro h
    simp only [extract_comments]
    rw [if_pos (List.length_pos.mpr h)]
  · intro h
    simp only [extract_comments]
    rw [if_neg (by simp [h])]
  · intro h
    have hc : (processLines lines 0 initState).code_block = [] := hInv.1 h
    simp only [extract_comments]
    rw [if_neg (by simp [hc])]

/-- C7 witness: an input ending inside an unterminated text region emits
only the previously flushed blocks (here none). -/
theorem C7_witness :
    extract_comments ["\"\"\"a\n".data, "b\n".data] =
      (processLines ["\"\"\"a\n".data, "b\n".data] 0 initState).blocks :=
  (C7_trailing_flush ["\"\"\"a\n".data, "b\n".data]).2.2 (by decide)

/-- The alternation invariant of the `extract_comments` loop: the blocks
flushed so far strictly alternate in kind, the kind of the most recently
flushed block matches the current state flag, and inside a comment block
the code accumulator is empty. -/
def InvA (s : ExtractState) : Prop :=
  List.Chain' (fun a b : Block => a.is_code ≠ b.is_code) s.blocks ∧
  (∀ b, s.blocks.getLast? = some b → b.is_code = s.in_comment) ∧
  (s.in_comment = true → s.code_block = [])

lemma processLines_alt (lines : List (List Char)) :
    ∀ (i : Nat) (s : ExtractState), InvA s → (i = 0 → s = initState) →
      InvA (processLines lines i s) := by
  induction lines with
  | nil => intro i s hI _; simpa [processLines] using hI
  | cons l ls ih =>
    intro i s hI h0
    obtain ⟨hch, hlast, hcode⟩ := hI
    rw [processLines]
    refine ih (i + 1) (step i l s) ?_ (fun hz => absurd hz (Nat.succ_ne_zero i))
    by_cases hm : is_comment l = true
    · by_cases hic : s.in_comment = true
      · -- exit a comment block: flush a text block
        have hstep : step i l s =
            { s with
                blocks := s.blocks ++ [⟨joinL s.comment_block, false⟩]
                comment_block := []
                in_comment := false } := by
          simp [step, hm, hic]
        rw [hstep]
        refine ⟨?_, ?_, ?_⟩
        · refine hch.append (List.chain'_singleton _) ?_
          intro x hx y hy
          have hy' : y = ⟨joinL s.comment_block, false⟩ := by symm; simpa using hy
          subst hy'
          have hx' := hlast x (Option.mem_def.mp hx)
          simp [hx', hic]
        · intro b hb
          rw [List.getLast?_concat] at hb
          cases hb
          rfl
        · intro hb
          simp at hb
      · -- enter a comment block
        have hic' : s.in_comment = false := by simpa using hic
        by_cases hi : i = 0
        · have hs : s = initState := h0 hi
          subst hs
          have hstep : step i l initState =
              { initState with
                  in_comment := true
                  comment_block := [ remove_comment_syntax l] } := by
            simp [step, hm, hi, initState]
          rw [hstep]
          exact ⟨by simp [initState], by simp [initState], fun _ => rfl⟩
        · have hstep : step i l s =
              { s with
                  blocks := s.blocks ++ [⟨joinL s.code_block, true⟩]
                  code_block := []
                  in_comment := true
                  comment_block := s.comment_block ++ [ remove_comment_syntax l] } := by
            simp [step, hm, hic', hi]
          rw [hstep]
          refine ⟨?_, ?_, ?_⟩
          · refine hch.append (List.chain'_singleton _) ?_
            intro x hx y hy
            have hy' : y = ⟨joinL s.code_block, true⟩ := by symm; simpa using hy
            subst hy'
            have hx' := hlast x (Option.mem_def.mp hx)
            simp [hx', hic']
          · intro b hb
            rw [List.getLast?_concat] at hb
            cases hb
            rfl
          · intro _
            rfl
    · have hm' : is_comment l = false := by simpa using hm
      by_cases hic : s.in_comment = true
      · have hstep : step i l s =
            { s with comment_block := s.comment_block ++ [l] } := by
          simp [step, hm', hic]
        rw [hstep]
        exact ⟨hch, fun b hb => hlast b hb, fun h => hcode h⟩
      · have hic' : s.in_comment = false := by simpa using hic
        have hstep : step i l s =
            { s with code_block := s.code_block ++ [l] } := by
          simp [step, hm', hic']
        rw [hstep]
        refine ⟨hch, fun b hb => hlast b hb, fun h => ?_⟩
        rw [hic'] at h
        cases h

/-- C9: for every input whose marker lines occur in matched pairs (an even
number of marker lines, scanned from line 0 starting in the code state),
the kinds of the emitted blocks strictly alternate between code and text,
as the one-boolean state machine prescribes. -/
theorem C9_alternation (lines : List (List Char))
    (_h : (lines.countP (fun l => is_comment l)) % 2 = 0) :
    List.Chain' (fun a b : Block => a.is_code ≠ b.is_code)
      (extract_comments lines) := by
  obtain ⟨hch, hlast, hcode⟩ := processLines_alt lines 0 initState
    ⟨List.chain'_nil, by simp [initState], fun _ => rfl⟩ (fun _ => rfl)
  simp only [extract_comments]
  by_cases hcb : (processLines lines 0 initState).code_block.length > 0
  · rw [if_pos hcb]
    refine hch.append (List.chain'_singleton _) ?_
    intro x hx y hy
    have hy' : y = ⟨joinL (processLines lines 0 initState).code_block, true⟩ := by
      symm
      simpa using hy
    subst hy'
    have hx' := hlast x (Option.mem_def.mp hx)
    cases hic : (processLines lines 0 initState).in_comment with
    | true =>
      rw [hcode hic] at hcb
      simp at hcb
    | false =>
      rw [hx', hic]
      simp
  · rw [if_neg hcb]
    exact hch

/-- C9 witness: on a four-line input with one matched marker pair the
emitted block kinds alternate. -/
theorem C9_witness :
    List.Chain' (fun a b : Block => a.is_code ≠ b.is_code)
      (extract_comments
        ["x\n".data, "\"\"\"t\n".data, "\"\"\"\n".data, "y\n".data]) :=
  C9_alternation ["x\n".data, "\"\"\"t\n".data, "\"\"\"\n".data, "y\n".data]
    (by decide)

/-- C8: the renderer skips every block with empty content and renders
every other block independently, a code block becoming exactly a leading
newline, the opening fence tagged "python", a newline, the verbatim
content, a newline, the closing fence and a final newline; the whole
output is the concatenation of these per-block renderings in order. -/
theorem C8_render_shape (blocks : List Block) :
    build_markdown blocks = joinL (blocks.map renderBlockSpec) := by
  unfold build_markdown
  rw [foldl_render]
  simp

end Py2Md
